import Mathlib

/-!
Verification development for the powdr PIL analyzer and witness solver.

The analyzer (`src/analyzer/mod.rs`) and the row evaluator
(`src/commit_evaluator/evaluator.rs`) are embedded shallowly below.
Pure Rust functions become Lean functions; `panic!` / failed `unwrap` /
failed `assert!` / `todo!` sites become `Except.error` with a message;
`HashMap` / `HashSet` state becomes total functions to `Option` and lists.
Machine integers: `ConstantNumberType` is modelled as unbounded `Int`
(the spec describes it as "a signed integer wide enough to hold
intermediate compile-time arithmetic"); `u64` row indices are modelled as
`Nat` with explicit wrap-around `% 2^64` where the code can overflow.

Parts of the repository that are referenced but absent from `src/`
(the parser AST, `AffineExpression`, `ExpressionEvaluator`, the machine
trait, `FixedData`) are modelled from the spec; each such definition
carries a doc comment starting with `Modelled from the spec:`.
-/

namespace Powdr

/-- Modelled from the spec: `ConstantNumberType` (from the absent parser
module) is "a signed integer wide enough to hold intermediate compile-time
arithmetic"; we use unbounded `Int`. -/
abbrev ConstantNumberType := Int

/-- Modelled from the spec: binary operators of the expression language,
op ∈ \x7b+, −, ×, ÷, ^\x7d (the type lives in the absent parser module and is
re-exported by the analyzer). -/
inductive BinaryOperator where
  | Add
  | Sub
  | Mul
  | Div
  | Pow
deriving DecidableEq, Repr

/-- Modelled from the spec: unary operators, op ∈ \x7b−\x7d. -/
inductive UnaryOperator where
  | Minus
deriving DecidableEq, Repr

/-- Modelled from the spec: the parser-side (pre-analysis) expression AST.
The variants are exactly those matched in `Context::process_expression` /
`Context::evaluate_expression`: `Constant`, `PolynomialReference` (carrying
an optional explicit namespace, a name, an optional array-index
sub-expression and the `next` shift flag), `Number`, `BinaryOperation`
and `UnaryOperation`. -/
inductive AstExpression where
  | Constant : String → AstExpression
  | PolynomialReference : Option String → String → Option AstExpression → Bool → AstExpression
  | Number : ConstantNumberType → AstExpression
  | BinaryOperation : AstExpression → BinaryOperator → AstExpression → AstExpression
  | UnaryOperation : UnaryOperator → AstExpression → AstExpression

/-- Modelled from the spec: a parsed polynomial declaration item
`\x7bname, array_size?\x7d` (parser type `ast::PolynomialName`). -/
structure AstPolynomialName where
  name : String
  array_size : Option AstExpression

/-- Modelled from the spec: a parsed selected-expression group
`\x7bselector?, expressions\x7d` (parser type `ast::SelectedExpressions`). -/
structure AstSelectedExpressions where
  selector : Option AstExpression
  expressions : List AstExpression

/-- Modelled from the spec: the parsed statement kinds dispatched in
`Context::process_file`. -/
inductive Statement where
  | Include : String → Statement
  | Namespace : String → AstExpression → Statement
  | PolynomialDefinition : String → AstExpression → Statement
  | PolynomialConstantDeclaration : List AstPolynomialName → Statement
  | PolynomialCommitDeclaration : List AstPolynomialName → Statement
  | PolynomialIdentity : AstExpression → Statement
  | PlookupIdentity : AstSelectedExpressions → AstSelectedExpressions → Statement
  | ConstantDefinition : String → AstExpression → Statement

/-- `PolynomialType` from `src/analyzer/mod.rs`. -/
inductive PolynomialType where
  | Committed
  | Constant
  | Intermediate
deriving DecidableEq, Repr

/-- `PolynomialReference` (analyzer output) from `src/analyzer/mod.rs`:
`\x7b name, index : Option<u64>, next : bool \x7d`. -/
structure PolynomialReference where
  name : String
  index : Option Nat
  next : Bool
deriving DecidableEq, Repr

/-- `Expression` (analyzer output) from `src/analyzer/mod.rs`. -/
inductive Expression where
  | Constant : String → Expression
  | PolynomialReference : PolynomialReference → Expression
  | Number : ConstantNumberType → Expression
  | BinaryOperation : Expression → BinaryOperator → Expression → Expression
  | UnaryOperation : UnaryOperator → Expression → Expression
deriving DecidableEq, Repr

/-- `SelectedExpressions` (analyzer output) from `src/analyzer/mod.rs`. -/
structure SelectedExpressions where
  selector : Option Expression
  expressions : List Expression
deriving DecidableEq, Repr

/-- `PlookupIdentity` from `src/analyzer/mod.rs`. -/
structure PlookupIdentity where
  key : SelectedExpressions
  haystack : SelectedExpressions
deriving DecidableEq, Repr

/-- `Polynomial` from `src/analyzer/mod.rs`. -/
structure Polynomial where
  id : Nat
  absolute_name : String
  poly_type : PolynomialType
  degree : ConstantNumberType
  length : Option ConstantNumberType
deriving DecidableEq, Repr

/-- `Context` from `src/analyzer/mod.rs`.  `HashMap`s become functions to
`Option`, the `HashSet` of included files becomes a list of canonical
paths, and `PathBuf`s become strings. -/
structure Context where
  namespc : String
  polynomial_degree : ConstantNumberType
  constants : String → Option ConstantNumberType
  declarations : String → Option Polynomial
  polynomial_identities : List Expression
  plookup_identities : List PlookupIdentity
  included_files : List String
  current_dir : String
  commit_poly_counter : Nat
  constant_poly_counter : Nat
  intermediate_poly_counter : Nat

/-- `Context::new`: namespace "Global", everything else `Default`
(counters and degree 0, empty maps and lists). -/
def Context.new : Context where
  namespc := "Global"
  polynomial_degree := 0
  constants := fun _ => none
  declarations := fun _ => none
  polynomial_identities := []
  plookup_identities := []
  included_files := []
  current_dir := ""
  commit_poly_counter := 0
  constant_poly_counter := 0
  intermediate_poly_counter := 0

/-- `Context::namespaced_ref`: `format!("\x7b\x7d.\x7bname\x7d", namespace.unwrap_or(current))`. -/
def Context.namespaced_ref (ctx : Context) (ns : Option String) (name : String) : String :=
  (ns.getD ctx.namespc) ++ "." ++ name

/-- `Context::namespaced`. -/
def Context.namespaced (ctx : Context) (name : String) : String :=
  ctx.namespaced_ref none name

/-- The arithmetic of `Context::evaluate_binary_operation` on two
compile-time values.  Rust `i128` semantics: `/` is truncating division
(panics on divisor 0), `^` asserts the exponent is `<= u32::MAX` and
truncates it with `as u32` (i.e. reduces it mod `2^32`). -/
def evalBinOp (l : ConstantNumberType) (op : BinaryOperator) (r : ConstantNumberType) :
    Except String ConstantNumberType :=
  match op with
  | .Add => .ok (l + r)
  | .Sub => .ok (l - r)
  | .Mul => .ok (l * r)
  | .Div => if r = 0 then .error "panic: division by zero" else .ok (l.tdiv r)
  | .Pow =>
    if r ≤ (2 ^ 32 - 1 : Int) then .ok (l ^ (r.emod (2 ^ 32)).toNat)
    else .error "panic: assertion failed: right <= u32::MAX"

/-- `Context::evaluate_expression`.  `Ok none` means "not compile-time
evaluable" (the source's `None`); `Except.error` models a panic
(indexing a missing constant, the `todo!()` for unary operations, a
failed division or `pow` assertion). -/
def Context.evaluate_expression (ctx : Context) : AstExpression → Except String (Option ConstantNumberType)
  | .Constant name =>
    match ctx.constants name with
    | some v => .ok (some v)
    | none => .error "panic: constant not found"
  | .PolynomialReference _ _ _ _ => .ok none
  | .Number n => .ok (some n)
  | .BinaryOperation left op right => do
    match (← ctx.evaluate_expression left), (← ctx.evaluate_expression right) with
    | some l, some r => do .ok (some (← evalBinOp l op r))
    | _, _ => .ok none
  | .UnaryOperation _ _ => .error "panic: not yet implemented"

/-- `Context::evaluate_binary_operation` (it calls `evaluate_expression`
on both children and combines the results). -/
def Context.evaluate_binary_operation (ctx : Context) (left : AstExpression)
    (op : BinaryOperator) (right : AstExpression) : Except String (Option ConstantNumberType) := do
  match (← ctx.evaluate_expression left), (← ctx.evaluate_expression right) with
  | some l, some r => do .ok (some (← evalBinOp l op r))
  | _, _ => .ok none

/-- `Context::process_expression`.  The array index of a polynomial
reference is evaluated at compile time (`unwrap` panics if that fails)
and cast `as u64`; a binary operation is folded to a `Number` when the
whole subtree evaluates; unary operations hit `todo!()`. -/
def Context.process_expression (ctx : Context) : AstExpression → Except String Expression
  | .Constant name => .ok (.Constant name)
  | .PolynomialReference ns name idx next => do
    let index ← match idx with
      | none => pure (none : Option Nat)
      | some i =>
        match ← ctx.evaluate_expression i with
        | some v => pure (some ((v.emod (2 ^ 64)).toNat))
        | none => .error "panic: called unwrap on None"
    .ok (.PolynomialReference ⟨ctx.namespaced_ref ns name, index, next⟩)
  | .Number n => .ok (.Number n)
  | .BinaryOperation left op right => do
    match ← ctx.evaluate_binary_operation left op right with
    | some v => .ok (.Number v)
    | none =>
      .ok (.BinaryOperation (← ctx.process_expression left) op (← ctx.process_expression right))
  | .UnaryOperation _ _ => .error "panic: not yet implemented"

/-- `Context::process_selected_expression`. -/
def Context.process_selected_expression (ctx : Context) (e : AstSelectedExpressions) :
    Except String SelectedExpressions := do
  let sel ← match e.selector with
    | none => pure (none : Option Expression)
    | some s => do pure (some (← ctx.process_expression s))
  let exprs ← e.expressions.mapM ctx.process_expression
  .ok ⟨sel, exprs⟩

/-- `Context::handle_namespace`: evaluate the degree (`unwrap` panics if
it is not compile-time evaluable), then set degree and namespace. -/
def Context.handle_namespace (ctx : Context) (name : String) (degree : AstExpression) :
    Except String Context := do
  match ← ctx.evaluate_expression degree with
  | some d => .ok { ctx with polynomial_degree := d, namespc := name }
  | none => .error "panic: called unwrap on None"

/-- One iteration of the loop in `Context::handle_polynomial_declaration`:
take an id from the kind-specific counter, build the `Polynomial`
(evaluating the array size, `unwrap` panics on failure), and insert it;
`assert!(is_new)` panics if the absolute name is already declared. -/
def Context.declareOne (ctx : Context) (pt : PolynomialType) (pn : AstPolynomialName) :
    Except String Context := do
  let id := match pt with
    | .Committed => ctx.commit_poly_counter
    | .Constant => ctx.constant_poly_counter
    | .Intermediate => ctx.intermediate_poly_counter
  let ctx' := match pt with
    | .Committed => { ctx with commit_poly_counter := ctx.commit_poly_counter + 1 }
    | .Constant => { ctx with constant_poly_counter := ctx.constant_poly_counter + 1 }
    | .Intermediate => { ctx with intermediate_poly_counter := ctx.intermediate_poly_counter + 1 }
  match (match pn.array_size with
    | none => Except.ok (none : Option ConstantNumberType)
    | some l =>
      match ctx.evaluate_expression l with
      | .error m => .error m
      | .ok (some v) => .ok (some v)
      | .ok none => .error "panic: called unwrap on None") with
  | .error m => .error m
  | .ok length =>
    let poly : Polynomial :=
      { id := id
        absolute_name := ctx.namespaced pn.name
        poly_type := pt
        degree := ctx.polynomial_degree
        length := length }
    if (ctx'.declarations poly.absolute_name).isSome then
      .error "panic: assertion failed: is_new"
    else
      .ok { ctx' with
        declarations := fun n => if n = poly.absolute_name then some poly else ctx'.declarations n }

/-- `Context::handle_polynomial_declaration`: fold `declareOne` over the
declared names. -/
def Context.handle_polynomial_declaration (ctx : Context) (polys : List AstPolynomialName)
    (pt : PolynomialType) : Except String Context :=
  polys.foldlM (fun c pn => c.declareOne pt pn) ctx

/-- `Context::handle_constant_definition`: evaluate the value (`unwrap`
panics on failure) and insert into the global constant table;
`assert!(is_new)` panics on a duplicate name. -/
def Context.handle_constant_definition (ctx : Context) (name : String) (value : AstExpression) :
    Except String Context := do
  match ← ctx.evaluate_expression value with
  | some v =>
    if (ctx.constants name).isSome then
      .error "panic: assertion failed: is_new"
    else
      .ok { ctx with constants := fun n => if n = name then some v else ctx.constants n }
  | none => .error "panic: called unwrap on None"

/-- `Context::handle_polynomial_identity`. -/
def Context.handle_polynomial_identity (ctx : Context) (e : AstExpression) :
    Except String Context := do
  let expr ← ctx.process_expression e
  .ok { ctx with polynomial_identities := ctx.polynomial_identities ++ [expr] }

/-- `Context::handle_plookup_identity`. -/
def Context.handle_plookup_identity (ctx : Context) (key haystack : AstSelectedExpressions) :
    Except String Context := do
  let k ← ctx.process_selected_expression key
  let h ← ctx.process_selected_expression haystack
  .ok { ctx with plookup_identities := ctx.plookup_identities ++ [⟨k, h⟩] }

/-- Modelled from the spec: the external collaborators used by
`Context::process_file` — path canonicalization, file reading plus
parsing (`None` models a failed `read_to_string`/`parse` whose `unwrap`
panics), parent-directory extraction and include-path joining.  The spec
declares file I/O and include-path resolution mechanics out of scope, so
they are abstract parameters here. -/
structure Fs where
  canon : String → String
  read : String → Option (List Statement)
  parent : String → String
  join : String → String → String

mutual

/-- `Context::process_file`: canonicalize, consult the include-guard set
`included_files` (note: the source never inserts into that set), read and
parse, save/set/restore `current_dir`, and process each statement.  `fuel`
bounds the include recursion depth; `fuel = 0` returns an error standing
for non-termination. -/
def process_file (fs : Fs) : Nat → Context → String → Except String Context
  | 0, _, _ => .error "out of fuel"
  | fuel + 1, ctx, path =>
    let cpath := fs.canon path
    if cpath ∈ ctx.included_files then .ok ctx
    else
      match fs.read cpath with
      | none => .error "panic: could not read or parse file"
      | some stmts => do
        let old_dir := ctx.current_dir
        let ctx ← process_statements fs fuel { ctx with current_dir := fs.parent cpath } stmts
        .ok { ctx with current_dir := old_dir }

/-- The statement loop of `Context::process_file`. -/
def process_statements (fs : Fs) : Nat → Context → List Statement → Except String Context
  | _, ctx, [] => .ok ctx
  | 0, _, _ :: _ => .error "out of fuel"
  | fuel + 1, ctx, s :: rest => do
    let ctx ← process_statement fs fuel ctx s
    process_statements fs fuel ctx rest

/-- The statement dispatch of `Context::process_file` (including
`handle_include`, which joins the include path onto `current_dir` and
recurses; `PolynomialDefinition` hits `todo!()`). -/
def process_statement (fs : Fs) : Nat → Context → Statement → Except String Context
  | 0, _, _ => .error "out of fuel"
  | fuel + 1, ctx, s =>
    match s with
    | .Include p => process_file fs fuel ctx (fs.join ctx.current_dir p)
    | .Namespace name degree => ctx.handle_namespace name degree
    | .PolynomialDefinition _ _ => .error "panic: not yet implemented"
    | .PolynomialConstantDeclaration ps => ctx.handle_polynomial_declaration ps .Constant
    | .PolynomialCommitDeclaration ps => ctx.handle_polynomial_declaration ps .Committed
    | .PolynomialIdentity e => ctx.handle_polynomial_identity e
    | .PlookupIdentity k h => ctx.handle_plookup_identity k h
    | .ConstantDefinition n v => ctx.handle_constant_definition n v

end

/-! ## Witness solver (`src/commit_evaluator/evaluator.rs`)

The solver works over `AbstractNumberType`, which the spec describes as a
finite-field element.  We model the field as `ZMod P` for a parameter `P`
(witness instantiations pick a concrete modulus); `AffineExpression`, the
expression evaluator, `FixedData`, `EvalError` and the machine interface
are absent from `src/` and are modelled from the spec (§3, §4.2–§4.4).
Rust panics (`unwrap`, out-of-bounds indexing, missing map keys) are an
outer `Except String` layer that aborts the whole computation, distinct
from the recoverable `EvalError`s that the solver collects as failure
reasons. -/

/-- Wrap-around of Rust `u64` arithmetic (release-mode wrapping). -/
def wrap64 (n : Nat) : Nat := n % 2 ^ 64

/-- Modelled from the spec: `AffineExpression`, `Σ cᵢ · xᵢ + k` over
witness-column ids, stored as a dense coefficient vector indexed by
witness id plus a constant offset. -/
structure AffineExpression (P : ℕ) where
  coefficients : List (ZMod P)
  offset : ZMod P
deriving DecidableEq

namespace AffineExpression

/-- Modelled from the spec: construction from a constant field element
(zero coefficients). -/
def fromConstant {P : ℕ} (k : ZMod P) : AffineExpression P := ⟨[], k⟩

/-- Modelled from the spec: construction from a single witness column id
(coefficient 1, constant 0); the source spells it
`from_wittness_poly_value`. -/
def from_wittness_poly_value {P : ℕ} (id : Nat) : AffineExpression P :=
  ⟨List.replicate id 0 ++ [1], 0⟩

/-- Pointwise addition of coefficient vectors (shorter vector padded
with zeros). -/
def addCoeffs {P : ℕ} : List (ZMod P) → List (ZMod P) → List (ZMod P)
  | [], ys => ys
  | xs, [] => xs
  | x :: xs, y :: ys => (x + y) :: addCoeffs xs ys

/-- Modelled from the spec: pointwise addition, constants sum. -/
def add {P : ℕ} (a b : AffineExpression P) : AffineExpression P :=
  ⟨addCoeffs a.coefficients b.coefficients, a.offset + b.offset⟩

/-- Modelled from the spec: scalar multiplication. -/
def smul {P : ℕ} (c : ZMod P) (a : AffineExpression P) : AffineExpression P :=
  ⟨a.coefficients.map (fun x => c * x), c * a.offset⟩

/-- Negation, i.e. scalar multiplication by −1. -/
def neg {P : ℕ} (a : AffineExpression P) : AffineExpression P := smul (-1) a

/-- Modelled from the spec: pointwise subtraction. -/
def sub {P : ℕ} (a b : AffineExpression P) : AffineExpression P := add a (neg b)

/-- Modelled from the spec: `is_constant()` — all coefficients zero. -/
def is_constant {P : ℕ} (a : AffineExpression P) : Bool :=
  a.coefficients.all (fun c => c = 0)

/-- Modelled from the spec: `constant_value()` — the constant k when
`is_constant()`, else none. -/
def constant_value {P : ℕ} (a : AffineExpression P) : Option (ZMod P) :=
  if a.is_constant then some a.offset else none

/-- Modelled from the spec: `is_invalid()` — `is_constant() && k ≠ 0`. -/
def is_invalid {P : ℕ} (a : AffineExpression P) : Bool :=
  a.is_constant && a.offset ≠ 0

/-- Modelled from the spec: `solve()` — if exactly one coefficient c is
nonzero (shape `c·x + k = 0`), return `(x, -k / c)` where the division is
the field inverse; else none. -/
def solve {P : ℕ} (a : AffineExpression P) : Option (Nat × ZMod P) :=
  match a.coefficients.enum.filter (fun p => p.2 ≠ 0) with
  | [(i, c)] => some (i, -a.offset * c⁻¹)
  | _ => none

end AffineExpression

/-- Modelled from the spec: the error taxonomy of the solver
(`EvalError`).  Formatted Rust messages become structured variants; the
`Display` formatting itself is out-of-scope output formatting. -/
inductive EvalError (P : ℕ) where
  | ConstraintInvalid : AffineExpression P → EvalError P
  | CouldNotSolve : AffineExpression P → EvalError P
  | PreviousValueUnknown : String → EvalError P
  | NextNextReference : String → EvalError P
  | SelectorNotBoolean : AffineExpression P → EvalError P
  | NoMatchingMachine : EvalError P
  | NoQueryAnswer : String → String → EvalError P
  | QueryNotHandled : EvalError P
  | NonLinear : EvalError P
  | MachineError : String → EvalError P
deriving DecidableEq

/-- Outcome of an evaluation step: `abort` models a Rust panic (fatal,
propagates out of the whole solver), `fail` a recoverable `EvalError`. -/
inductive EvalFailure (P : ℕ) where
  | abort : String → EvalFailure P
  | fail : EvalError P → EvalFailure P
deriving DecidableEq

/-- `WitnessColumn` (solver input): name, numeric id, optional
compile-time query expression. -/
structure WitnessColumn where
  name : String
  id : Nat
  query : Option Expression
deriving DecidableEq

/-- Modelled from the spec: `FixedData` (§3) — ordered witness column
list, name→id index for witnesses, fixed columns (name → value vector),
scalar constants, verbose flag. -/
structure FixedData (P : ℕ) where
  witness_cols : List WitnessColumn
  witness_ids : String → Option Nat
  fixed_cols : String → Option (List (ZMod P))
  constants : String → Option (ZMod P)
  verbose : Bool

/-- `EvaluationRow` from `src/commit_evaluator/evaluator.rs`:
Current — p is p[next_row − 1], p' is p[next_row];
Next — p is p[next_row], p' is p[next_row + 1]. -/
inductive EvaluationRow where
  | Current
  | Next
deriving DecidableEq

/-- `EvaluationData` from `src/commit_evaluator/evaluator.rs`. -/
structure EvaluationData (P : ℕ) where
  fixed_data : FixedData P
  current_witnesses : List (Option (ZMod P))
  next_witnesses : List (Option (ZMod P))
  next_row : Nat
  evaluate_row : EvaluationRow

/-- `SymbolicVariables::constant` for `EvaluationData`: look up the
scalar constant (indexing a missing key panics). -/
def EvaluationData.constant {P : ℕ} (d : EvaluationData P) (name : String) :
    Except (EvalFailure P) (AffineExpression P) :=
  match d.fixed_data.constants name with
  | some v => .ok (.fromConstant v)
  | none => .error (.abort "panic: constant not found")

/-- `SymbolicVariables::value` for `EvaluationData`
(`src/commit_evaluator/evaluator.rs` lines 343–387).  For a witness
column: Current/unshifted reads `current` (unknown ⇒
`PreviousValueUnknown`); Next/unshifted and Current/shifted read `next`
(unknown ⇒ the symbolic affine for that id); Next/shifted is the
next-next-row error.  For a fixed column of length `degree`:
Current-mode base row is `(next_row + degree − 1) % degree` (computed in
wrapping u64 arithmetic), Next-mode base row is `next_row` unreduced; a
shift adds one and reduces `% degree`; the final vector indexing panics
when out of bounds (and `% degree` panics when `degree = 0`). -/
def EvaluationData.value {P : ℕ} (d : EvaluationData P) (name : String) (next : Bool) :
    Except (EvalFailure P) (AffineExpression P) :=
  match d.fixed_data.witness_ids name with
  | some id =>
    match next, d.evaluate_row with
    | false, .Current =>
      match d.current_witnesses.get? id with
      | none => .error (.abort "panic: index out of bounds")
      | some none => .error (.fail (.PreviousValueUnknown name))
      | some (some v) => .ok (.fromConstant v)
    | false, .Next | true, .Current =>
      match d.next_witnesses.get? id with
      | none => .error (.abort "panic: index out of bounds")
      | some (some v) => .ok (.fromConstant v)
      | some none => .ok (.from_wittness_poly_value id)
    | true, .Next => .error (.fail (.NextNextReference name))
  | none =>
    match d.fixed_data.fixed_cols name with
    | none => .error (.abort "panic: fixed column not found")
    | some values =>
      let degree := values.length
      if degree = 0 then .error (.abort "panic: remainder by zero")
      else
        let row := match d.evaluate_row with
          | .Current => wrap64 (wrap64 (d.next_row + degree) + (2 ^ 64 - 1)) % degree
          | .Next => d.next_row
        let row := if next then wrap64 (row + 1) % degree else row
        match values.get? row with
        | some v => .ok (.fromConstant v)
        | none => .error (.abort "panic: index out of bounds")

/-- Modelled from the spec: multiplication of affine expressions is legal
only when at least one operand is constant (§4.2); otherwise the
evaluator reports a nonlinearity error. -/
def affineMul {P : ℕ} (a b : AffineExpression P) :
    Except (EvalFailure P) (AffineExpression P) :=
  match a.constant_value with
  | some c => .ok (.smul c b)
  | none =>
    match b.constant_value with
    | some c => .ok (.smul c a)
    | none => .error (.fail .NonLinear)

/-- Modelled from the spec: `^` unfolded by repeated multiplication
(§4.3); nonlinear intermediate products are rejected by `affineMul`. -/
def affinePow {P : ℕ} (a : AffineExpression P) : Nat → Except (EvalFailure P) (AffineExpression P)
  | 0 => .ok (.fromConstant 1)
  | n + 1 => do affineMul (← affinePow a n) a

/-- Modelled from the spec: the expression evaluator (§4.3) — transforms
a normalized expression into an affine expression over the unknown
witness columns, given an `EvaluationData` (which supplies the in-scope
`src` function `EvaluationData.value` for references).  Add/Sub lift
pointwise; Mul requires one constant side; Div requires both sides
constant (field division); `^` requires a constant exponent
(its value taken as a natural number) and a constant base or an unfolding
by repeated multiplication; unary minus is scalar multiplication by −1. -/
def evaluateExpr {P : ℕ} (d : EvaluationData P) : Expression → Except (EvalFailure P) (AffineExpression P)
  | .Constant name => d.constant name
  | .PolynomialReference r => d.value r.name r.next
  | .Number n => .ok (.fromConstant (n : ZMod P))
  | .BinaryOperation l op r => do
    let lv ← evaluateExpr d l
    let rv ← evaluateExpr d r
    match op with
    | .Add => .ok (lv.add rv)
    | .Sub => .ok (lv.sub rv)
    | .Mul => affineMul lv rv
    | .Div =>
      match lv.constant_value, rv.constant_value with
      | some a, some b => .ok (.fromConstant (a * b⁻¹))
      | _, _ => .error (.fail .NonLinear)
    | .Pow =>
      match rv.constant_value with
      | none => .error (.fail .NonLinear)
      | some e =>
        match lv.constant_value with
        | some b => .ok (.fromConstant (b ^ e.val))
        | none => affinePow lv e.val
  | .UnaryOperation .Minus e => do .ok (.neg (← evaluateExpr d e))

/-- `IdentityKind` (the three kinds the spec's data model lists: §3). -/
inductive IdentityKind where
  | Polynomial
  | Plookup
  | Permutation
deriving DecidableEq

/-- `Identity` as used by the evaluator: kind plus left/right
selected-expression groups. -/
structure Identity where
  kind : IdentityKind
  left : SelectedExpressions
  right : SelectedExpressions
deriving DecidableEq

/-- Modelled from the spec: `LookupReturn` of the machine contract
(§4.4). -/
inductive LookupReturn (P : ℕ) where
  | NotApplicable : LookupReturn P
  | Assignments : List (Nat × ZMod P) → LookupReturn P
deriving DecidableEq

/-- Modelled from the spec: the machine contract (§4.4) —
`process_plookup(fixed_data, kind, left_values, right)` returning
`NotApplicable`, `Assignments`, or an error, and `witness_col_values`
contributing machine-owned columns.  Machines' internal mutable state is
outside the specified core; they are modelled as pure functions. -/
structure Machine (P : ℕ) where
  process_plookup : FixedData P → IdentityKind →
    List (Except (EvalError P) (AffineExpression P)) → SelectedExpressions →
    Except (EvalError P) (LookupReturn P)
  witness_col_values : FixedData P → List (String × List (ZMod P))

/-- The immutable part of the `Evaluator` struct: fixed data, identity
list, machines, optional query callback. -/
structure EvCfg (P : ℕ) where
  fixed_data : FixedData P
  identities : List Identity
  machines : List (Machine P)
  query_callback : Option (String → Option (ZMod P))

/-- The mutable part of the `Evaluator` struct: `current` and `next`
witness vectors, `next_row`, collected failure reasons, the `progress`
flag, and the (loop-local in the source) `identity_failed` flag. -/
structure EvState (P : ℕ) where
  current : List (Option (ZMod P))
  next : List (Option (ZMod P))
  next_row : Nat
  failure_reasons : List (EvalError P)
  progress : Bool
  identity_failed : Bool
deriving DecidableEq

/-- `Evaluator::evaluate`: build an `EvaluationData` from the current
state and run the expression evaluator. -/
def evalIn {P : ℕ} (cfg : EvCfg P) (st : EvState P) (row : EvaluationRow) (e : Expression) :
    Except (EvalFailure P) (AffineExpression P) :=
  evaluateExpr ⟨cfg.fixed_data, st.current, st.next, st.next_row, row⟩ e

/-- Modelled from the spec: `contains_next_ref` (from the absent
`util.rs`) — whether the expression mentions any shifted reference
`p'` (§4.5). -/
def contains_next_ref : Expression → Bool
  | .PolynomialReference r => r.next
  | .BinaryOperation l _ r => contains_next_ref l || contains_next_ref r
  | .UnaryOperation _ e => contains_next_ref e
  | _ => false

/-- `Evaluator::process_polynomial_identity`: pick Current row iff the
expression contains a `p'` reference, evaluate to affine; constant zero
is satisfied; a solvable form yields one assignment; otherwise the
invalid-constraint or could-not-solve error. -/
def process_polynomial_identity {P : ℕ} (cfg : EvCfg P) (st : EvState P) (e : Expression) :
    Except (EvalFailure P) (List (Nat × ZMod P)) := do
  let row := if contains_next_ref e then EvaluationRow.Current else EvaluationRow.Next
  let evaluated ← evalIn cfg st row e
  if evaluated.constant_value = some 0 then
    .ok []
  else
    match evaluated.solve with
    | some (id, value) => .ok [(id, value)]
    | none =>
      .error (.fail (if evaluated.is_invalid then .ConstraintInvalid evaluated
                     else .CouldNotSolve evaluated))

/-- The evaluation of the left-hand expressions in
`Evaluator::process_plookup`: each expression is evaluated on the Next
row and the per-expression `Result`s are collected (a panic aborts). -/
def evalLefts {P : ℕ} (cfg : EvCfg P) (st : EvState P) :
    List Expression → Except String (List (Except (EvalError P) (AffineExpression P)))
  | [] => .ok []
  | e :: rest =>
    match evalIn cfg st .Next e with
    | .error (.abort m) => .error m
    | .error (.fail er) => do .ok (.error er :: (← evalLefts cfg st rest))
    | .ok a => do .ok (.ok a :: (← evalLefts cfg st rest))

/-- The machine dispatch loop of `Evaluator::process_plookup`: machines
are tried in registration order; an error propagates (`?`); the first
`Assignments` is returned; if every machine answers `NotApplicable` the
lookup fails with the no-matching-machine error. -/
def queryMachines {P : ℕ} (fd : FixedData P) (kind : IdentityKind)
    (left : List (Except (EvalError P) (AffineExpression P))) (right : SelectedExpressions) :
    List (Machine P) → Except (EvalError P) (List (Nat × ZMod P))
  | [] => .error .NoMatchingMachine
  | m :: ms =>
    match m.process_plookup fd kind left right with
    | .error e => .error e
    | .ok (.Assignments a) => .ok a
    | .ok .NotApplicable => queryMachines fd kind left right ms

/-- `Evaluator::process_plookup`: evaluate the left selector on the Next
row — constant 0 skips the identity, constant 1 proceeds, anything else
is an error; then evaluate the left expressions and query the machines in
order. -/
def process_plookup {P : ℕ} (cfg : EvCfg P) (st : EvState P) (identity : Identity) :
    Except (EvalFailure P) (List (Nat × ZMod P)) :=
  let dispatch := fun (_ : Unit) =>
    match evalLefts cfg st identity.left.expressions with
    | .error m => (.error (.abort m) : Except (EvalFailure P) (List (Nat × ZMod P)))
    | .ok left =>
      match queryMachines cfg.fixed_data identity.kind left identity.right cfg.machines with
      | .error e => .error (.fail e)
      | .ok a => .ok a
  match identity.left.selector with
  | none => dispatch ()
  | some sel =>
    match evalIn cfg st .Next sel with
    | .error err => .error err
    | .ok value =>
      match value.constant_value with
      | some c =>
        if c = 0 then .ok []
        else if c = 1 then dispatch ()
        else .error (.fail (.SelectorNotBoolean value))
      | none => .error (.fail (.SelectorNotBoolean value))

/-- The assignment-application part of `Evaluator::handle_eval_result`:
each `(id, value)` is written unconditionally — `next[id] = Some(value)`
— and sets `progress := true` (indexing out of bounds panics). -/
def applyAssignments {P : ℕ} (st : EvState P) :
    List (Nat × ZMod P) → Except String (EvState P)
  | [] => .ok st
  | (id, value) :: rest =>
    if id < st.next.length then
      applyAssignments { st with next := st.next.set id (some value), progress := true } rest
    else .error "panic: index out of bounds"

/-- `Evaluator::handle_eval_result`: apply the assignments of a
successful result; record the reason of a failed one. -/
def handle_eval_result {P : ℕ} (st : EvState P)
    (result : Except (EvalError P) (List (Nat × ZMod P))) : Except String (EvState P) :=
  match result with
  | .ok assignments => applyAssignments st assignments
  | .error reason => .ok { st with failure_reasons := st.failure_reasons ++ [reason] }

/-- One identity step of the fixed-point loop in
`Evaluator::compute_next_row`: dispatch on the identity kind (a
polynomial identity unwraps `left.selector`, panicking when absent), set
`identity_failed` on an error, and hand the result to
`handle_eval_result`. -/
def processIdentity {P : ℕ} (cfg : EvCfg P) (st : EvState P) (identity : Identity) :
    Except String (EvState P) :=
  let result : Except (EvalFailure P) (List (Nat × ZMod P)) :=
    match identity.kind with
    | .Polynomial =>
      match identity.left.selector with
      | none => .error (.abort "panic: called unwrap on None")
      | some e => process_polynomial_identity cfg st e
    | .Plookup | .Permutation => process_plookup cfg st identity
  match result with
  | .error (.abort m) => .error m
  | .error (.fail e) => handle_eval_result { st with identity_failed := true } (.error e)
  | .ok a => handle_eval_result st (.ok a)

/-- Formatting of a constant query value (`AffineExpression::format` on a
constant; the concrete number formatting is out-of-scope output
formatting and modelled as the decimal canonical representative). -/
def formatConst {P : ℕ} (v : ZMod P) : String := toString v.val

/-- `Evaluator::interpolate_query`: try to evaluate the query to a
constant and format it; otherwise (our normalized expressions have no
`Tuple`/`String`/`LocalVariableReference` nodes) the query cannot be
handled.  Evaluation panics abort; evaluation errors fall through. -/
def interpolate_query {P : ℕ} (cfg : EvCfg P) (st : EvState P) (q : Expression) :
    Except String (Except (EvalError P) String) :=
  match evalIn cfg st .Next q with
  | .error (.abort m) => .error m
  | .ok v => if v.is_constant then .ok (.ok (formatConst v.offset)) else .ok (.error .QueryNotHandled)
  | .error (.fail _) => .ok (.error .QueryNotHandled)

/-- `Evaluator::process_witness_query`: interpolate the column's query
(`unwrap` panics when there is none) and invoke the callback; a `None`
answer is the no-query-answer error. -/
def process_witness_query {P : ℕ} (cfg : EvCfg P) (st : EvState P) (col : WitnessColumn) :
    Except String (Except (EvalError P) (List (Nat × ZMod P))) :=
  match col.query with
  | none => .error "panic: called unwrap on None"
  | some q =>
    match interpolate_query cfg st q with
    | .error m => .error m
    | .ok (.error e) => .ok (.error e)
    | .ok (.ok query) =>
      match cfg.query_callback with
      | some cb =>
        match cb query with
        | some value => .ok (.ok [(col.id, value)])
        | none => .ok (.error (.NoQueryAnswer col.name query))
      | none => .ok (.error (.NoQueryAnswer col.name query))

/-- Insertion into a by-name-sorted column list. -/
def insertByName (c : WitnessColumn) : List WitnessColumn → List WitnessColumn
  | [] => [c]
  | d :: rest => if c.name ≤ d.name then c :: d :: rest else d :: insertByName c rest

/-- The witness columns sorted by name: the `Evaluator` stores them in a
`BTreeMap` keyed by name, so the query loop visits them in name order
(names are distinct — they key the `witness_ids` map). -/
def sortByName : List WitnessColumn → List WitnessColumn
  | [] => []
  | c :: rest => insertByName c (sortByName rest)

/-- The query section of the fixed-point loop: when a query callback is
configured, every witness column is visited in name order; a column with
a still-unknown `next` entry (the lookup `next[id]` panics when the id is
out of bounds) and a query expression is queried and the result handed to
`handle_eval_result`. -/
def processQueries {P : ℕ} (cfg : EvCfg P) (st : EvState P) : Except String (EvState P) :=
  match cfg.query_callback with
  | none => .ok st
  | some _ =>
    (sortByName cfg.fixed_data.witness_cols).foldlM (fun st col =>
      match st.next.get? col.id with
      | none => .error "panic: index out of bounds"
      | some entry =>
        if entry.isNone ∧ col.query.isSome then
          match process_witness_query cfg st col with
          | .error m => .error m
          | .ok r => handle_eval_result st r
        else .ok st) st

/-- One pass of the fixed-point loop of `Evaluator::compute_next_row`:
reset `identity_failed`, `progress` and the failure reasons, process
every identity in order, then the witness queries. -/
def runPass {P : ℕ} (cfg : EvCfg P) (st : EvState P) : Except String (EvState P) :=
  cfg.identities.foldlM (processIdentity cfg)
      { st with identity_failed := false, progress := false, failure_reasons := [] } >>=
    processQueries cfg

/-- The fixed-point loop of `Evaluator::compute_next_row`: run passes
until one makes no progress or every `next` entry is known.  `fuel`
bounds the number of passes; `Except.ok none` means the loop was still
running after `fuel` passes. -/
def runLoop {P : ℕ} : Nat → EvCfg P → EvState P → Except String (Option (EvState P))
  | 0, _, _ => .ok none
  | fuel + 1, cfg, st => do
    let st' ← runPass cfg st
    if st'.progress = false then .ok (some st')
    else if st'.next.all (fun v => v.isSome) then .ok (some st')
    else runLoop fuel cfg st'

/-- `Evaluator::compute_next_row`: set `next_row`, run the fixed-point
loop; if an identity failed during the final pass and the row is not 0,
abort with the collected failure reasons (the source panics after
printing them); otherwise commit — `swap(current, next)`, reset `next`
to all-unknown, and return the committed row with unknowns defaulted to
zero. -/
def compute_next_row {P : ℕ} (fuel : Nat) (cfg : EvCfg P) (next_row : Nat) (st : EvState P) :
    Except String (Option (Except (List (EvalError P)) (List (ZMod P) × EvState P))) := do
  match ← runLoop fuel cfg { st with next_row := next_row } with
  | none => .ok none
  | some st' =>
    if st'.identity_failed ∧ next_row ≠ 0 then
      .ok (some (.error st'.failure_reasons))
    else
      .ok (some (.ok (st'.next.map (fun v => v.getD 0),
        { st' with
          current := st'.next
          next := List.replicate st'.next.length none })))

/-- `HashMap::extend` on a name-keyed map: later entries replace earlier
bindings of the same key. -/
def hmExtend {P : ℕ} (m : String → Option (List (ZMod P)))
    (entries : List (String × List (ZMod P))) : String → Option (List (ZMod P)) :=
  entries.foldl (fun acc kv => fun k => if k = kv.1 then some kv.2 else acc k) m

/-- `Evaluator::machine_witness_col_values`: starting from the empty map,
extend with each machine's `witness_col_values` in registration order. -/
def machine_witness_col_values {P : ℕ} (cfg : EvCfg P) : String → Option (List (ZMod P)) :=
  cfg.machines.foldl (fun acc m => hmExtend acc (m.witness_col_values cfg.fixed_data))
    (fun _ => none)

/-! ## Spec-side definitions and concrete fixtures used by the claims -/

/-- Whether an AST expression tree contains no unary operation. -/
def noUnary : AstExpression → Bool
  | .Constant _ => true
  | .PolynomialReference _ _ _ _ => true
  | .Number _ => true
  | .BinaryOperation l _ r => noUnary l && noUnary r
  | .UnaryOperation _ _ => false

/-- Whether the root node of an AST expression is a bare constant
reference. -/
def isConstantRoot : AstExpression → Bool
  | .Constant _ => true
  | _ => false

/-- Spec-side definition (for the constant-folding refinement claim,
following the spec's words, to be compared with the source-derived
`Context.process_expression`): the mathematical integer evaluation of an
AST tree under the standard meanings of +, −, ×, ÷ and ^ — division
defined when the divisor is nonzero and divides exactly, the exponent of
^ required to fit in 32 bits, a polynomial reference not evaluable, and
a constant reference looked up in the constant table. -/
def specBinOp (a : Int) (op : BinaryOperator) (b : Int) : Option Int :=
  match op with
  | .Add => some (a + b)
  | .Sub => some (a - b)
  | .Mul => some (a * b)
  | .Div => if b ≠ 0 ∧ b ∣ a then some (a / b) else none
  | .Pow => if 0 ≤ b ∧ b < 2 ^ 32 then some (a ^ b.toNat) else none

/-- Spec-side definition (continued): the recursive mathematical
evaluation, combining subtree values with `specBinOp`. -/
def specMathEval (consts : String → Option Int) : AstExpression → Option Int
  | .Constant name => consts name
  | .PolynomialReference _ _ _ _ => none
  | .Number n => some n
  | .BinaryOperation l op r => do
    let a ← specMathEval consts l
    let b ← specMathEval consts r
    specBinOp a op b
  | .UnaryOperation .Minus e => do
    let a ← specMathEval consts e
    some (-a)

/-- A context whose constant table binds `N ↦ 16` (fixture for the
constant-folding counterexample). -/
def ctxN : Context :=
  { Context.new with constants := fun n => if n = "N" then some 16 else none }

/-- A context in which the absolute name `Global.x` is already declared
(fixture for the redeclaration witness). -/
def ctxD : Context :=
  { Context.new with
    declarations := fun n =>
      if n = "Global.x" then some ⟨0, "Global.x", .Committed, 0, none⟩ else none }

/-- A two-file source tree in which `root` includes `b` twice and `b`
holds one polynomial identity (fixture for the include-guard claim).
Canonicalization is the identity and include paths are used verbatim. -/
def fsTwice : Fs where
  canon := id
  read := fun p =>
    if p = "root" then some [.Include "b", .Include "b"]
    else if p = "b" then some [.PolynomialIdentity (.Number 1)]
    else none
  parent := fun _ => ""
  join := fun _ p => p

/-- The last binding of a key in an association list (the binding a
`HashMap` built by insertions in list order would hold). -/
def findLastValue {β : Type _} : List (String × β) → String → Option β
  | [], _ => none
  | (k, v) :: rest, key =>
    match findLastValue rest key with
    | some w => some w
    | none => if key = k then some v else none

/-- A `FixedData` over `ZMod 7` with one fixed column `c = [3, 4]` and no
witness columns (fixture for the fixed-column shift claim). -/
def fdC3 : FixedData 7 where
  witness_cols := []
  witness_ids := fun _ => none
  fixed_cols := fun n => if n = "c" then some [3, 4] else none
  constants := fun _ => none
  verbose := false

/-- Evaluation of row 2 in Next mode over `fdC3` (fixture for the
fixed-column out-of-bounds counterexample). -/
def dC3 : EvaluationData 7 where
  fixed_data := fdC3
  current_witnesses := []
  next_witnesses := []
  next_row := 2
  evaluate_row := .Next

/-- Evaluation of row 5 in Current mode over `fdC3`. -/
def dC3w : EvaluationData 7 where
  fixed_data := fdC3
  current_witnesses := []
  next_witnesses := []
  next_row := 5
  evaluate_row := .Current

/-- An empty `FixedData` over `ZMod 7`. -/
def fd7 : FixedData 7 where
  witness_cols := []
  witness_ids := fun _ => none
  fixed_cols := fun _ => none
  constants := fun _ => none
  verbose := false

/-- A machine contributing witness column `x = [1]`. -/
def mA : Machine 7 where
  process_plookup := fun _ _ _ _ => .ok .NotApplicable
  witness_col_values := fun _ => [("x", [1])]

/-- A machine contributing witness column `x = [2]`. -/
def mB : Machine 7 where
  process_plookup := fun _ _ _ _ => .ok .NotApplicable
  witness_col_values := fun _ => [("x", [2])]

/-- A machine that recognizes nothing. -/
def mNA : Machine 7 where
  process_plookup := fun _ _ _ _ => .ok .NotApplicable
  witness_col_values := fun _ => []

/-- A machine asserting the assignment `(0, 5)` for every lookup. -/
def mAsn : Machine 7 where
  process_plookup := fun _ _ _ _ => .ok (.Assignments [(0, 5)])
  witness_col_values := fun _ => []

/-- A selector-less lookup identity with no left expressions. -/
def idLk : Identity where
  kind := .Plookup
  left := ⟨none, []⟩
  right := ⟨none, []⟩

/-- A two-witness-column `FixedData` over `ZMod 7` (`w0`, `w1`, no
queries). -/
def fdW2 : FixedData 7 where
  witness_cols := [⟨"w0", 0, none⟩, ⟨"w1", 1, none⟩]
  witness_ids := fun n => if n = "w0" then some 0 else if n = "w1" then some 1 else none
  fixed_cols := fun _ => none
  constants := fun _ => none
  verbose := false

/-- Solver configuration whose single identity is the lookup `idLk` and
whose single machine is `mAsn` (fixture for the non-termination
counterexample). -/
def cfgLoop : EvCfg 7 where
  fixed_data := fdW2
  identities := [idLk]
  machines := [mAsn]
  query_callback := none

/-- Dispatch fixture: machines `[mNA, mAsn]` over `fdW2` with the single
identity `idLk`. -/
def cfgDisp : EvCfg 7 where
  fixed_data := fdW2
  identities := [idLk]
  machines := [mNA, mAsn]
  query_callback := none

/-- Fresh two-column solver state. -/
def stW2 : EvState 7 where
  current := [none, none]
  next := [none, none]
  next_row := 0
  failure_reasons := []
  progress := true
  identity_failed := false

/-- A one-witness-column `FixedData` over `ZMod 7`. -/
def fdW1 : FixedData 7 where
  witness_cols := [⟨"w", 0, none⟩]
  witness_ids := fun n => if n = "w" then some 0 else none
  fixed_cols := fun _ => none
  constants := fun _ => none
  verbose := false

/-- A machine that assigns `(0, 1)` to lookups with an empty right-hand
expression list and `(0, 2)` to all others (fixture for the overwrite
counterexample). -/
def mSel : Machine 7 where
  process_plookup := fun _ _ _ right =>
    .ok (.Assignments [(0, if right.expressions.length = 0 then 1 else 2)])
  witness_col_values := fun _ => []

/-- A selector-less lookup identity with one right-hand expression
(distinguishable from `idLk` by `mSel`). -/
def idI2 : Identity where
  kind := .Plookup
  left := ⟨none, []⟩
  right := ⟨none, [.Number 0]⟩

/-- Overwrite fixture: one witness column, identities `[idLk, idI2]`,
machine `mSel`. -/
def cfgOv : EvCfg 7 where
  fixed_data := fdW1
  identities := [idLk, idI2]
  machines := [mSel]
  query_callback := none

/-- Fresh one-column solver state with `progress = false`. -/
def stOv : EvState 7 where
  current := [none]
  next := [none]
  next_row := 0
  failure_reasons := []
  progress := false
  identity_failed := false

/-- One-column solver state whose `next[0]` is already set to 1. -/
def stKnown : EvState 7 where
  current := [none]
  next := [some 1]
  next_row := 0
  failure_reasons := []
  progress := false
  identity_failed := false

/-- A solver configuration with no identities, machines or queries. -/
def cfgEmpty7 : EvCfg 7 where
  fixed_data := fd7
  identities := []
  machines := []
  query_callback := none

/-- The empty solver state (no witness columns). -/
def stE : EvState 7 where
  current := []
  next := []
  next_row := 0
  failure_reasons := []
  progress := true
  identity_failed := false

/-- The always-violated polynomial identity `1 = 0` (spec scenario S6). -/
def idBad : Identity where
  kind := .Polynomial
  left := ⟨some (.Number 1), []⟩
  right := ⟨none, []⟩

/-- Solver configuration whose single identity is `idBad` over one
witness column. -/
def cfgFail : EvCfg 7 where
  fixed_data := fdW1
  identities := [idBad]
  machines := []
  query_callback := none

/-- Fresh one-column solver state. -/
def st0W1 : EvState 7 where
  current := [none]
  next := [none]
  next_row := 0
  failure_reasons := []
  progress := true
  identity_failed := false

/-- The state the `cfgFail` loop quiesces in when solving row `r`. -/
def stFail (r : Nat) : EvState 7 where
  current := [none]
  next := [none]
  next_row := r
  failure_reasons := [.ConstraintInvalid ⟨[], 1⟩]
  progress := false
  identity_failed := true

/-- The number of unknown entries of a `next` vector. -/
def countNone {P : ℕ} (xs : List (Option (ZMod P))) : Nat :=
  xs.countP (fun o => o.isNone)

/-- Pointwise "known entries stay known" between two `next` vectors of
equal length. -/
def KeepsSet {P : ℕ} (xs ys : List (Option (ZMod P))) : Prop :=
  List.Forall₂ (fun a b => a.isSome = true → b.isSome = true) xs ys

/-! ## Theorems -/

theorem exceptBindOk {ε α β : Type _} (a : α) (f : α → Except ε β) :
    (Except.ok a : Except ε α) >>= f = f a := rfl

theorem exceptBindErr {ε α β : Type _} (e : ε) (f : α → Except ε β) :
    (Except.error e : Except ε α) >>= f = .error e := rfl

theorem evalBinOp_spec {a b v : Int} {op : BinaryOperator}
    (h : specBinOp a op b = some v) : evalBinOp a op b = .ok v := by
  cases op with
  | Add => simp_all [specBinOp, evalBinOp]
  | Sub => simp_all [specBinOp, evalBinOp]
  | Mul => simp_all [specBinOp, evalBinOp]
  | Div =>
    simp only [specBinOp] at h
    split at h
    · rename_i hcond
      obtain ⟨hb, hdvd⟩ := hcond
      simp only [Option.some.injEq] at h
      subst h
      simp [evalBinOp, hb, Int.tdiv_eq_ediv_of_dvd hdvd]
    · simp at h
  | Pow =>
    simp only [specBinOp] at h
    split at h
    · rename_i hcond
      obtain ⟨h0, hlt⟩ := hcond
      simp only [Option.some.injEq] at h
      subst h
      have h1 : b.emod 4294967296 = b := Int.emod_eq_of_lt h0 (by omega)
      have h2 : b ≤ (4294967295 : Int) := by omega
      simp [evalBinOp, h1, h2]
    · simp at h

theorem evaluate_expression_spec : ∀ (e : AstExpression) (ctx : Context) (v : Int),
    noUnary e = true → specMathEval ctx.constants e = some v →
    ctx.evaluate_expression e = .ok (some v)
  | .Constant name, ctx, v, _, hv => by
    simp only [specMathEval] at hv
    simp [Context.evaluate_expression, hv]
  | .PolynomialReference ns nm ix nx, ctx, v, _, hv => by
    simp [specMathEval] at hv
  | .Number n, ctx, v, _, hv => by
    simp only [specMathEval, Option.some.injEq] at hv
    simp [Context.evaluate_expression, hv]
  | .BinaryOperation l op r, ctx, v, hu, hv => by
    simp only [noUnary, Bool.and_eq_true] at hu
    obtain ⟨hul, hur⟩ := hu
    simp only [specMathEval, Option.bind_eq_bind] at hv
    cases hl : specMathEval ctx.constants l with
    | none => rw [hl] at hv; simp at hv
    | some a =>
      rw [hl] at hv
      cases hr : specMathEval ctx.constants r with
      | none => rw [hr] at hv; simp at hv
      | some b =>
        rw [hr] at hv
        simp only [Option.some_bind] at hv
        have el := evaluate_expression_spec l ctx a hul hl
        have er := evaluate_expression_spec r ctx b hur hr
        have hop := evalBinOp_spec hv
        simp only [Context.evaluate_expression, el, er, exceptBindOk, hop]
  | .UnaryOperation op e, _, v, hu, _ => by
    simp [noUnary] at hu

/-- C1 (amended): for every AST expression tree containing no polynomial
reference and no unary operation, whose root is not a bare constant
reference, whenever the tree's mathematical integer evaluation is defined
(constants bound, divisors nonzero and dividing exactly, exponents of ^
in [0, 2³²)), `process_expression` returns `Number(v)` with v that
evaluation. -/
theorem c1_constant_folding (ctx : Context) (e : AstExpression) (v : Int)
    (hu : noUnary e = true) (hroot : isConstantRoot e = false)
    (hv : specMathEval ctx.constants e = some v) :
    ctx.process_expression e = .ok (.Number v) := by
  cases e with
  | Constant name => simp [isConstantRoot] at hroot
  | PolynomialReference ns nm ix nx => simp [specMathEval] at hv
  | Number n =>
    simp only [specMathEval, Option.some.injEq] at hv
    simp [Context.process_expression, hv]
  | BinaryOperation l op r =>
    simp only [noUnary, Bool.and_eq_true] at hu
    obtain ⟨hul, hur⟩ := hu
    simp only [specMathEval, Option.bind_eq_bind] at hv
    cases hl : specMathEval ctx.constants l with
    | none => rw [hl] at hv; simp at hv
    | some a =>
      rw [hl] at hv
      cases hr : specMathEval ctx.constants r with
      | none => rw [hr] at hv; simp at hv
      | some b =>
        rw [hr] at hv
        simp only [Option.some_bind] at hv
        have el := evaluate_expression_spec l ctx a hul hl
        have er := evaluate_expression_spec r ctx b hur hr
        have hop := evalBinOp_spec hv
        have heb : ctx.evaluate_binary_operation l op r = .ok (some v) := by
          simp only [Context.evaluate_binary_operation, el, er, exceptBindOk, hop]
        simp only [Context.process_expression, heb, exceptBindOk]
  | UnaryOperation op e => simp [noUnary] at hu

/-- C1 counterexample: a tree that is a bare constant reference is copied
as a `Constant` node (not folded to `Number(16)`), and a tree containing
a unary operation makes `process_expression` panic (`todo!()`) instead of
returning a `Number`. -/
theorem c1_counterexample :
    ctxN.process_expression (.Constant "N") = .ok (.Constant "N") ∧
    ctxN.process_expression (.UnaryOperation .Minus (.Number 1)) =
      .error "panic: not yet implemented" :=
  ⟨rfl, rfl⟩

/-- C1 witness: `2 ^ 4` folds to `Number 16` (spec scenario S1). -/
theorem c1_witness :
    Context.new.process_expression
        (.BinaryOperation (.Number 2) .Pow (.Number 4)) = .ok (.Number 16) :=
  c1_constant_folding Context.new _ 16 rfl rfl rfl

/-- C2: with `root` including `b` twice, the second include is processed
again — `included_files` stays empty (the source never inserts into it),
so `b`'s identity is contributed twice. -/
theorem c2_double_include :
    (process_file fsTwice 10 Context.new "root").map
        (fun c => (c.polynomial_identities, c.included_files)) =
      .ok ([.Number 1, .Number 1], []) := by
  rfl

theorem declareOne_mono {ctx ctx' : Context} {pt : PolynomialType} {pn : AstPolynomialName}
    (h : ctx.declareOne pt pn = .ok ctx') :
    ctx'.namespc = ctx.namespc ∧
    ∀ n, (ctx.declarations n).isSome → (ctx'.declarations n).isSome := by
  cases pt <;>
  · simp only [Context.declareOne] at h
    split at h
    · exact absurd h (by simp)
    · split at h
      · exact absurd h (by simp)
      · simp only [Except.ok.injEq] at h
        subst h
        refine ⟨rfl, fun n hn => ?_⟩
        simp only
        split <;> simp_all

theorem declareOne_dup_fails {ctx : Context} {pt : PolynomialType} {pn : AstPolynomialName}
    (hdup : (ctx.declarations (ctx.namespaced pn.name)).isSome) :
    (ctx.declareOne pt pn).isOk = false := by
  cases pt <;>
  · simp only [Context.declareOne]
    split
    · rfl
    · simp [hdup, Except.isOk, Except.toBool]

theorem handle_polynomial_declaration_dup :
    ∀ (polys : List AstPolynomialName) (ctx : Context) (pt : PolynomialType)
      (pn : AstPolynomialName), pn ∈ polys →
      (ctx.declarations (ctx.namespaced pn.name)).isSome →
      (ctx.handle_polynomial_declaration polys pt).isOk = false
  | [], _, _, _, hmem, _ => absurd hmem (List.not_mem_nil _)
  | p :: rest, ctx, pt, pn, hmem, hdup => by
    unfold Context.handle_polynomial_declaration
    rw [List.foldlM_cons]
    rcases List.mem_cons.mp hmem with heq | hmem'
    · subst heq
      have hfail := @declareOne_dup_fails ctx pt pn hdup
      cases hd : ctx.declareOne pt pn with
      | error m => simp [hd, exceptBindErr, Except.isOk, Except.toBool]
      | ok c => rw [hd] at hfail; simp [Except.isOk, Except.toBool] at hfail
    · cases hd : ctx.declareOne pt p with
      | error m => simp [hd, exceptBindErr, Except.isOk, Except.toBool]
      | ok c =>
        have hm := declareOne_mono hd
        have hdup' : (c.declarations (c.namespaced pn.name)).isSome := by
          have hns : c.namespaced pn.name = ctx.namespaced pn.name := by
            simp [Context.namespaced, Context.namespaced_ref, hm.1]
          rw [hns]
          exact hm.2 _ hdup
        have ih := handle_polynomial_declaration_dup rest c pt pn hmem' hdup'
        unfold Context.handle_polynomial_declaration at ih
        rw [exceptBindOk]
        exact ih

/-- C7: `absolute_name` is injective over the declaration table (it is
keyed by absolute name), and both redeclaring a polynomial whose absolute
name already exists and redefining a scalar constant whose global name
already exists make analysis fail with a hard error. -/
theorem c7_name_uniqueness :
    (∀ (ctx : Context) (polys : List AstPolynomialName) (pt : PolynomialType)
        (pn : AstPolynomialName), pn ∈ polys →
        (ctx.declarations (ctx.namespaced pn.name)).isSome →
        (ctx.handle_polynomial_declaration polys pt).isOk = false) ∧
    (∀ (ctx : Context) (name : String) (value : AstExpression),
        (ctx.constants name).isSome →
        (ctx.handle_constant_definition name value).isOk = false) := by
  constructor
  · exact fun ctx polys pt pn hmem hdup =>
      handle_polynomial_declaration_dup polys ctx pt pn hmem hdup
  · intro ctx name value hdup
    unfold Context.handle_constant_definition
    cases hev : ctx.evaluate_expression value with
    | error m => simp [hev, exceptBindErr, Except.isOk, Except.toBool]
    | ok o =>
      cases o with
      | none => simp [hev, exceptBindOk, Except.isOk, Except.toBool]
      | some v => simp [hev, exceptBindOk, hdup, Except.isOk, Except.toBool]

/-- C7 witness: redeclaring `Global.x` and redefining constant `N` both
fail. -/
theorem c7_witness :
    (ctxD.handle_polynomial_declaration [⟨"x", none⟩] .Committed).isOk = false ∧
    (ctxN.handle_constant_definition "N" (.Number 1)).isOk = false :=
  ⟨c7_name_uniqueness.1 ctxD [⟨"x", none⟩] .Committed ⟨"x", none⟩ (by simp) (by decide),
   c7_name_uniqueness.2 ctxN "N" (.Number 1) (by decide)⟩

/-- C9: before any namespace statement, the analyzer's namespace is
"Global" and the polynomial degree is 0 — an unqualified reference
resolves into the `Global` namespace, and a polynomial declared in the
fresh context gets absolute name `Global.<name>`, id 0 and degree 0. -/
theorem c9_initial_global_namespace (name : String) (pt : PolynomialType) :
    Context.new.namespaced_ref none name = "Global." ++ name ∧
    Context.new.polynomial_degree = 0 ∧
    Context.new.process_expression (.PolynomialReference none name none false) =
      .ok (.PolynomialReference ⟨"Global." ++ name, none, false⟩) ∧
    ∃ ctx', Context.new.handle_polynomial_declaration [⟨name, none⟩] pt = .ok ctx' ∧
      ctx'.declarations ("Global." ++ name) =
        some ⟨0, "Global." ++ name, pt, 0, none⟩ := by
  refine ⟨rfl, rfl, rfl, ?_⟩
  cases pt <;>
  · refine ⟨_, rfl, ?_⟩
    simp only
    rw [if_pos (show ("Global." ++ name : String) = Context.new.namespaced name from rfl)]
    rfl

theorem list_get?_getD {α : Type _} (l : List α) (n : ℕ) (d : α) (h : n < l.length) :
    l.get? n = some (l.getD n d) := by
  induction l generalizing n with
  | nil => simp at h
  | cons x xs ih =>
    cases n with
    | zero => rfl
    | succ m => simpa using ih m (by simpa using h)

/-- C3 (amended): for a fixed column `c` of length L > 0, with r the
evaluation-base row of the mode (`next_row` in Next mode, `next_row − 1`
in Current mode), `c` evaluates to `values[r mod L]` and `c'` to
`values[(r + 1) mod L]` — except that the unshifted Next-mode access
indexes with `next_row` unreduced, so it requires `next_row < L` and is
out of bounds (a panic) otherwise.  (`next_row + L < 2^64` keeps the u64
index arithmetic from wrapping.) -/
theorem c3_fixed_column_shift {P : ℕ} (d : EvaluationData P) (name : String)
    (values : List (ZMod P)) (L : ℕ)
    (hw : d.fixed_data.witness_ids name = none)
    (hf : d.fixed_data.fixed_cols name = some values)
    (hL : values.length = L) (h0 : 0 < L) (hrow : d.next_row + L < 2 ^ 64) :
    (d.evaluate_row = .Current →
      d.value name false =
        .ok (.fromConstant (values.getD ((d.next_row + L - 1) % L) 0)) ∧
      d.value name true =
        .ok (.fromConstant (values.getD (d.next_row % L) 0))) ∧
    (d.evaluate_row = .Next →
      (d.next_row < L →
        d.value name false =
          .ok (.fromConstant (values.getD (d.next_row % L) 0))) ∧
      d.value name true =
        .ok (.fromConstant (values.getD ((d.next_row + 1) % L) 0))) := by
  have hL' : values.length = L := hL
  have hcur : wrap64 (wrap64 (d.next_row + L) + (2 ^ 64 - 1)) = d.next_row + L - 1 := by
    unfold wrap64
    omega
  have hbound : ∀ n : ℕ, n % L < values.length := by
    intro n
    rw [hL']
    exact Nat.mod_lt _ h0
  constructor
  · intro hmode
    constructor
    · simp only [EvaluationData.value, hw, hf, hmode, hL, Bool.false_eq_true, if_false]
      rw [if_neg (show ¬ L = 0 by omega), hcur, list_get?_getD values _ 0 (hbound _)]
    · simp only [EvaluationData.value, hw, hf, hmode, hL, if_true]
      rw [if_neg (show ¬ L = 0 by omega), hcur]
      have hlt : (d.next_row + L - 1) % L < L := Nat.mod_lt _ h0
      have hw1 : wrap64 ((d.next_row + L - 1) % L + 1) = (d.next_row + L - 1) % L + 1 := by
        unfold wrap64
        omega
      have harith : ((d.next_row + L - 1) % L + 1) % L = d.next_row % L := by
        rw [Nat.mod_add_mod]
        have heq : d.next_row + L - 1 + 1 = d.next_row + L := by omega
        rw [heq, Nat.add_mod_right]
      rw [hw1, harith, list_get?_getD values _ 0 (hbound _)]
  · intro hmode
    constructor
    · intro hin
      simp only [EvaluationData.value, hw, hf, hmode, hL, Bool.false_eq_true, if_false]
      rw [if_neg (show ¬ L = 0 by omega), Nat.mod_eq_of_lt hin,
        list_get?_getD values _ 0 (by omega)]
    · simp only [EvaluationData.value, hw, hf, hmode, hL, if_true]
      rw [if_neg (show ¬ L = 0 by omega)]
      have hw1 : wrap64 (d.next_row + 1) = d.next_row + 1 := by
        unfold wrap64
        omega
      rw [hw1, list_get?_getD values _ 0 (hbound _)]

/-- C3 counterexample: in Next mode at `next_row = 2` over a fixed column
of length 2, the unshifted access indexes position 2 (no reduction mod L)
and panics out of bounds instead of yielding `values[2 mod 2] = 3`. -/
theorem c3_counterexample :
    dC3.value "c" false = .error (.abort "panic: index out of bounds") ∧
    dC3.value "c" true = .ok (.fromConstant 4) := by
  constructor <;> rfl

/-- C3 witness: Current mode at `next_row = 5` over `c = [3, 4]` — the
unshifted access yields `values[(5 + 2 − 1) mod 2] = values[0] = 3`, the
shifted one `values[5 mod 2] = values[1] = 4`. -/
theorem c3_witness :
    dC3w.value "c" false = .ok (.fromConstant 3) ∧
    dC3w.value "c" true = .ok (.fromConstant 4) :=
  ⟨((c3_fixed_column_shift dC3w "c" [3, 4] 2 rfl rfl rfl (by decide) (by decide)).1 rfl).1,
   ((c3_fixed_column_shift dC3w "c" [3, 4] 2 rfl rfl rfl (by decide) (by decide)).1 rfl).2⟩

theorem hmExtend_eq {P : ℕ} (entries : List (String × List (ZMod P))) :
    ∀ (m : String → Option (List (ZMod P))) (k : String),
      hmExtend m entries k =
        match findLastValue entries k with
        | some v => some v
        | none => m k := by
  induction entries with
  | nil => intro m k; rfl
  | cons kv rest ih =>
    intro m k
    obtain ⟨k', v'⟩ := kv
    simp only [hmExtend, List.foldl_cons, findLastValue]
    rw [show (List.foldl (fun acc kv => fun k => if k = kv.1 then some kv.2 else acc k)
        (fun k => if k = k' then some v' else m k) rest) k = hmExtend _ rest k from rfl, ih]
    cases hfl : findLastValue rest k with
    | some w => simp
    | none => by_cases hk : k = k' <;> simp [hk]

theorem mwcvFrom_post_none {P : ℕ} (fd : FixedData P) (k : String) :
    ∀ (post : List (Machine P)) (acc : String → Option (List (ZMod P))),
      (∀ m' ∈ post, findLastValue (m'.witness_col_values fd) k = none) →
      (post.foldl (fun a m => hmExtend a (m.witness_col_values fd)) acc) k = acc k := by
  intro post
  induction post with
  | nil => intro acc _; rfl
  | cons m' rest ih =>
    intro acc hnone
    simp only [List.foldl_cons]
    rw [ih _ (fun x hx => hnone x (List.mem_cons_of_mem _ hx)), hmExtend_eq,
      hnone m' (List.mem_cons_self _ _)]

/-- C10: `machine_witness_col_values` merges the machines' maps in
registration order by map extension — the binding of the last machine
(in registration order) that returns a column of a given name wins,
silently replacing any binding of the same name from an
earlier-registered machine. -/
theorem c10_later_machine_wins {P : ℕ} (fd : FixedData P) (idents : List Identity)
    (qc : Option (String → Option (ZMod P))) (pre post : List (Machine P)) (m : Machine P)
    (name : String) (v : List (ZMod P))
    (hm : findLastValue (m.witness_col_values fd) name = some v)
    (hpost : ∀ m' ∈ post, findLastValue (m'.witness_col_values fd) name = none) :
    machine_witness_col_values ⟨fd, idents, pre ++ m :: post, qc⟩ name = some v := by
  unfold machine_witness_col_values
  simp only [List.foldl_append, List.foldl_cons]
  rw [mwcvFrom_post_none fd name post _ hpost, hmExtend_eq, hm]

/-- C10 witness: both `mA` and `mB` return column `x`; the
later-registered `mB`'s vector `[2]` replaces `mA`'s `[1]`. -/
theorem c10_witness :
    machine_witness_col_values ⟨fd7, [], [mA, mB], none⟩ "x" = some [2] :=
  c10_later_machine_wins fd7 [] none [mA] [] mB "x" [2] (by decide) (by simp)

theorem queryMachines_prefix_na {P : ℕ} (fd : FixedData P) (kind : IdentityKind)
    (left : List (Except (EvalError P) (AffineExpression P))) (right : SelectedExpressions) :
    ∀ (pre rest : List (Machine P)),
      (∀ m' ∈ pre, m'.process_plookup fd kind left right = .ok .NotApplicable) →
      queryMachines fd kind left right (pre ++ rest) =
        queryMachines fd kind left right rest := by
  intro pre
  induction pre with
  | nil => intro rest _; rfl
  | cons m' ms ih =>
    intro rest hna
    simp only [List.cons_append, queryMachines, hna m' (List.mem_cons_self _ _)]
    exact ih rest (fun x hx => hna x (List.mem_cons_of_mem _ hx))

/-- C8: for an applicable lookup (selector absent or evaluating to the
constant 1), machines are queried in registration order: the assignments
of the first machine returning `Assignments` are the identity's result,
an error from the first non-`NotApplicable` machine propagates, and if
every machine returns `NotApplicable` the identity fails with the
no-matching-machine error. -/
theorem c8_machine_dispatch {P : ℕ} (cfg : EvCfg P) (st : EvState P) (identity : Identity)
    (lefts : List (Except (EvalError P) (AffineExpression P)))
    (hsel : identity.left.selector = none ∨
      ∃ s a c, identity.left.selector = some s ∧ evalIn cfg st .Next s = .ok a ∧
        a.constant_value = some c ∧ ¬ c = 0 ∧ c = 1)
    (hlefts : evalLefts cfg st identity.left.expressions = .ok lefts) :
    (∀ (pre post : List (Machine P)) (m : Machine P) (a : List (Nat × ZMod P)),
      cfg.machines = pre ++ m :: post →
      (∀ m' ∈ pre, m'.process_plookup cfg.fixed_data identity.kind lefts identity.right =
        .ok .NotApplicable) →
      m.process_plookup cfg.fixed_data identity.kind lefts identity.right =
        .ok (.Assignments a) →
      process_plookup cfg st identity = .ok a) ∧
    (∀ (pre post : List (Machine P)) (m : Machine P) (e : EvalError P),
      cfg.machines = pre ++ m :: post →
      (∀ m' ∈ pre, m'.process_plookup cfg.fixed_data identity.kind lefts identity.right =
        .ok .NotApplicable) →
      m.process_plookup cfg.fixed_data identity.kind lefts identity.right = .error e →
      process_plookup cfg st identity = .error (.fail e)) ∧
    ((∀ m' ∈ cfg.machines,
        m'.process_plookup cfg.fixed_data identity.kind lefts identity.right =
          .ok .NotApplicable) →
      process_plookup cfg st identity = .error (.fail .NoMatchingMachine)) := by
  have hdisp : ∀ (r : Except (EvalError P) (List (Nat × ZMod P))),
      queryMachines cfg.fixed_data identity.kind lefts identity.right cfg.machines = r →
      process_plookup cfg st identity =
        (match r with
         | .error e => .error (.fail e)
         | .ok a => .ok a) := by
    intro r hr
    unfold process_plookup
    rcases hsel with hnone | ⟨s, a, c, hs, hev, hcv, hc0, hc1⟩
    · simp only [hnone, hlefts, hr]
    · simp only [hs, hev, hcv, hlefts, hr]
      rw [if_neg hc0, if_pos hc1]
  refine ⟨?_, ?_, ?_⟩
  · intro pre post m a hsplit hpre hm
    have : queryMachines cfg.fixed_data identity.kind lefts identity.right cfg.machines =
        .ok a := by
      rw [hsplit, queryMachines_prefix_na _ _ _ _ pre (m :: post) hpre]
      simp [queryMachines, hm]
    simpa using hdisp _ this
  · intro pre post m e hsplit hpre hm
    have : queryMachines cfg.fixed_data identity.kind lefts identity.right cfg.machines =
        .error e := by
      rw [hsplit, queryMachines_prefix_na _ _ _ _ pre (m :: post) hpre]
      simp [queryMachines, hm]
    simpa using hdisp _ this
  · intro hall
    have : queryMachines cfg.fixed_data identity.kind lefts identity.right cfg.machines =
        .error .NoMatchingMachine := by
      have : cfg.machines = cfg.machines ++ [] := by simp
      rw [this, queryMachines_prefix_na _ _ _ _ cfg.machines [] hall]
      rfl
    simpa using hdisp _ this

/-- C8 witness: with machines `[mNA, mAsn]`, the first returns
`NotApplicable` and the second's assignments `[(0, 5)]` are the result of
the selector-less lookup `idLk`. -/
theorem c8_witness : process_plookup cfgDisp stW2 idLk = .ok [(0, 5)] :=
  (c8_machine_dispatch cfgDisp stW2 idLk [] (Or.inl rfl) rfl).1
    [mNA] [] mAsn [(0, 5)] rfl
    (fun m' hm' => by rw [List.mem_singleton] at hm'; subst hm'; rfl) rfl

theorem keepsSet_refl {P : ℕ} (xs : List (Option (ZMod P))) : KeepsSet xs xs :=
  List.forall₂_same.mpr (fun _ _ h => h)

theorem keepsSet_trans {P : ℕ} {xs ys zs : List (Option (ZMod P))}
    (h1 : KeepsSet xs ys) (h2 : KeepsSet ys zs) : KeepsSet xs zs := by
  induction h1 generalizing zs with
  | nil => cases h2; exact List.Forall₂.nil
  | cons hab _ ih =>
    cases h2 with
    | cons hbc htail => exact List.Forall₂.cons (fun h => hbc (hab h)) (ih htail)

theorem keepsSet_set {P : ℕ} (xs : List (Option (ZMod P))) (i : Nat) (v : ZMod P) :
    KeepsSet xs (xs.set i (some v)) := by
  induction xs generalizing i with
  | nil => exact List.Forall₂.nil
  | cons x rest ih =>
    cases i with
    | zero => exact List.Forall₂.cons (fun _ => rfl) (keepsSet_refl rest)
    | succ m => exact List.Forall₂.cons (fun h => h) (ih m)

theorem keepsSet_getD {P : ℕ} {xs ys : List (Option (ZMod P))} (h : KeepsSet xs ys) :
    ∀ i, (xs.getD i none).isSome = true → (ys.getD i none).isSome = true := by
  induction h with
  | nil => intro i hi; simp [List.getD] at hi
  | cons hab _ ih =>
    intro i hi
    cases i with
    | zero => exact hab hi
    | succ m => exact ih m hi

theorem applyAssignments_keeps {P : ℕ} :
    ∀ (as : List (Nat × ZMod P)) (st st' : EvState P),
      applyAssignments st as = .ok st' → KeepsSet st.next st'.next
  | [], st, st', h => by
    simp only [applyAssignments, Except.ok.injEq] at h
    subst h
    exact keepsSet_refl _
  | (id, v) :: rest, st, st', h => by
    simp only [applyAssignments] at h
    split at h
    · exact keepsSet_trans (keepsSet_set st.next id v)
        (applyAssignments_keeps rest _ st' h)
    · exact absurd h (by simp)

theorem handle_eval_result_keeps {P : ℕ} {st st' : EvState P}
    {res : Except (EvalError P) (List (Nat × ZMod P))}
    (h : handle_eval_result st res = .ok st') : KeepsSet st.next st'.next := by
  cases res with
  | ok assignments => exact applyAssignments_keeps assignments st st' h
  | error reason =>
    simp only [handle_eval_result, Except.ok.injEq] at h
    subst h
    exact keepsSet_refl _

theorem processIdentity_keeps {P : ℕ} {cfg : EvCfg P} {st st' : EvState P} {idt : Identity}
    (h : processIdentity cfg st idt = .ok st') : KeepsSet st.next st'.next := by
  simp only [processIdentity] at h
  split at h
  · exact absurd h (by simp)
  · have hk := handle_eval_result_keeps h
    exact hk
  · have hk := handle_eval_result_keeps h
    exact hk

theorem foldlM_keeps {P : ℕ} {α : Type _} (f : EvState P → α → Except String (EvState P))
    (hf : ∀ (s : EvState P) (a : α) (s' : EvState P), f s a = .ok s' → KeepsSet s.next s'.next) :
    ∀ (l : List α) (st st' : EvState P),
      List.foldlM f st l = .ok st' → KeepsSet st.next st'.next
  | [], st, st', h => by
    simp only [List.foldlM_nil] at h
    cases h
    exact keepsSet_refl _
  | a :: rest, st, st', h => by
    simp only [List.foldlM_cons] at h
    cases hfa : f st a with
    | error m => rw [hfa, exceptBindErr] at h; exact absurd h (by simp)
    | ok s1 =>
      rw [hfa, exceptBindOk] at h
      exact keepsSet_trans (hf st a s1 hfa) (foldlM_keeps f hf rest s1 st' h)

theorem processQueries_keeps {P : ℕ} {cfg : EvCfg P} {st st' : EvState P}
    (h : processQueries cfg st = .ok st') : KeepsSet st.next st'.next := by
  unfold processQueries at h
  split at h
  · cases h; exact keepsSet_refl _
  · refine foldlM_keeps _ ?_ _ st st' h
    intro s col s' hcol
    split at hcol
    · exact absurd hcol (by simp)
    · split at hcol
      · split at hcol
        · exact absurd hcol (by simp)
        · exact handle_eval_result_keeps hcol
      · cases hcol; exact keepsSet_refl _

theorem runPass_keeps {P : ℕ} {cfg : EvCfg P} {st st' : EvState P}
    (h : runPass cfg st = .ok st') : KeepsSet st.next st'.next := by
  unfold runPass at h
  cases hf : List.foldlM (processIdentity cfg)
      { st with identity_failed := false, progress := false, failure_reasons := [] }
      cfg.identities with
  | error m => rw [hf, exceptBindErr] at h; exact absurd h (by simp)
  | ok s1 =>
    rw [hf, exceptBindOk] at h
    have h1 := foldlM_keeps (processIdentity cfg) (fun s a s' hs => processIdentity_keeps hs)
      cfg.identities _ s1 hf
    exact keepsSet_trans h1 (processQueries_keeps h)

theorem runLoop_keeps {P : ℕ} (cfg : EvCfg P) :
    ∀ (fuel : Nat) (st r : EvState P),
      runLoop fuel cfg st = .ok (some r) → KeepsSet st.next r.next
  | 0, st, r, h => by simp [runLoop] at h
  | fuel + 1, st, r, h => by
    simp only [runLoop] at h
    cases hp : runPass cfg st with
    | error m => rw [hp, exceptBindErr] at h; exact absurd h (by simp)
    | ok st' =>
      rw [hp, exceptBindOk] at h
      split at h
      · cases h; exact runPass_keeps hp
      · split at h
        · cases h; exact runPass_keeps hp
        · exact keepsSet_trans (runPass_keeps hp) (runLoop_keeps cfg fuel st' r h)

/-- C4 (amended): `handle_eval_result` writes every assignment
unconditionally — an already-set `next[id]` is overwritten by a later
assignment to the same id, and the progress flag is set whether or not
the entry was previously unknown — but entries are never cleared: a set
`next[id]` stays set (with a possibly updated value) across every pass of
the fixed-point loop until `compute_next_row` returns. -/
theorem c4_set_next_persists {P : ℕ} (cfg : EvCfg P) (st : EvState P) (fuel : Nat)
    (r : EvState P) (i : Nat)
    (hrun : runLoop fuel cfg st = .ok (some r))
    (hset : (st.next.getD i none).isSome = true) :
    (r.next.getD i none).isSome = true :=
  keepsSet_getD (runLoop_keeps cfg fuel st r hrun) i hset

/-- C4 counterexample: within a single pass (identities processed
sequentially), the lookup `idLk` sets `next[0] := 1` and the subsequent
lookup `idI2` overwrites it to 2; and an assignment to an already-known
`next[0]` (same value 1) still sets the progress flag. -/
theorem c4_counterexample :
    ((processIdentity cfgOv stOv idLk).map (fun s => (s.next, s.progress)) =
      .ok ([some 1], true)) ∧
    ((processIdentity cfgOv stOv idLk >>= fun s => processIdentity cfgOv s idI2).map
        (fun s => (s.next, s.progress)) = .ok ([some 2], true)) ∧
    ((processIdentity cfgOv stKnown idLk).map (fun s => (s.next, s.progress)) =
      .ok ([some 1], true)) := by
  refine ⟨rfl, rfl, rfl⟩

/-- C4 witness: a value set before the loop is still set in the state the
loop exits with. -/
theorem c4_witness : (stKnown.next.getD 0 none).isSome = true :=
  c4_set_next_persists cfgEmpty7 stKnown 1 stKnown 0 rfl rfl

/-- C5: when the fixed-point loop exits with at least one identity having
failed during the final pass, `compute_next_row` on a row other than 0
aborts reporting the collected failure reasons; on row 0 the failure is
non-fatal and the row is committed (`current := next`, `next` reset to
all-unknown) with every remaining unknown value reported as zero. -/
theorem c5_row_zero_tolerance {P : ℕ} (cfg : EvCfg P) (st : EvState P)
    (fuel next_row : Nat) (st' : EvState P)
    (hrun : runLoop fuel cfg { st with next_row := next_row } = .ok (some st'))
    (hfail : st'.identity_failed = true) :
    (next_row ≠ 0 →
      compute_next_row fuel cfg next_row st = .ok (some (.error st'.failure_reasons))) ∧
    (next_row = 0 →
      compute_next_row fuel cfg next_row st =
        .ok (some (.ok (st'.next.map (fun v => v.getD 0),
          { st' with
            current := st'.next
            next := List.replicate st'.next.length none })))) := by
  constructor
  · intro hnz
    simp only [compute_next_row, hrun, exceptBindOk]
    rw [if_pos ⟨hfail, hnz⟩]
  · intro hz
    simp only [compute_next_row, hrun, exceptBindOk]
    rw [if_neg (by simp [hz])]

/-- C5 witness: the identity `1 = 0` fails every pass; at row 1
`compute_next_row` aborts with the invalid-constraint reason, at row 0 it
commits the row reporting zero for the unknown column (spec scenario
S6 and the row-0 tolerance combined). -/
theorem c5_witness :
    compute_next_row 1 cfgFail 1 st0W1 =
      .ok (some (.error [.ConstraintInvalid ⟨[], 1⟩])) ∧
    compute_next_row 1 cfgFail 0 st0W1 = .ok (some (.ok ([0], stFail 0))) :=
  ⟨(c5_row_zero_tolerance cfgFail st0W1 1 1 (stFail 1) rfl rfl).1 (by decide),
   (c5_row_zero_tolerance cfgFail st0W1 1 0 (stFail 0) rfl rfl).2 rfl⟩

theorem runLoop_exit_cond {P : ℕ} (cfg : EvCfg P) :
    ∀ (fuel : Nat) (st r : EvState P),
      runLoop fuel cfg st = .ok (some r) →
      r.progress = false ∨ r.next.all (fun v => v.isSome) = true
  | 0, st, r, h => by simp [runLoop] at h
  | fuel + 1, st, r, h => by
    simp only [runLoop] at h
    cases hp : runPass cfg st with
    | error m => rw [hp, exceptBindErr] at h; exact absurd h (by simp)
    | ok st' =>
      rw [hp, exceptBindOk] at h
      split at h
      · cases h; left; assumption
      · split at h
        · cases h; right; assumption
        · exact runLoop_exit_cond cfg fuel st' r h

theorem runLoop_terminates_of_fresh {P : ℕ} (cfg : EvCfg P)
    (hfresh : ∀ s s' : EvState P, runPass cfg s = .ok s' → s'.progress = true →
      countNone s'.next < countNone s.next) :
    ∀ (n : Nat) (st : EvState P), countNone st.next ≤ n →
      runLoop (n + 1) cfg st ≠ .ok none := by
  intro n
  induction n with
  | zero =>
    intro st hcount h
    simp only [runLoop] at h
    cases hp : runPass cfg st with
    | error m => rw [hp, exceptBindErr] at h; exact absurd h (by simp)
    | ok st' =>
      rw [hp, exceptBindOk] at h
      split at h
      · simp at h
      · split at h
        · simp at h
        · rename_i hprog _
          have := hfresh st st' hp (by revert hprog; cases st'.progress <;> simp)
          omega
  | succ m ih =>
    intro st hcount h
    rw [show m + 1 + 1 = (m + 1) + 1 from rfl] at h
    simp only [runLoop] at h
    cases hp : runPass cfg st with
    | error m => rw [hp, exceptBindErr] at h; exact absurd h (by simp)
    | ok st' =>
      rw [hp, exceptBindOk] at h
      split at h
      · simp at h
      · split at h
        · simp at h
        · rename_i hprog _
          have hlt := hfresh st st' hp (by revert hprog; cases st'.progress <;> simp)
          exact ih st' (by omega) h

/-- C6 (amended): the fixed-point loop exits exactly when a pass makes no
progress or every `next[id]` is known; and provided every progressing
pass strictly decreases the number of unknown `next` entries (as when
machines and the query callback only ever assign previously-unknown
columns), the loop finishes within `|witness_cols| + 1` passes.  A
machine re-asserting an already-known value keeps `progress` set without
reducing the unknowns, so the unconditional bound fails (see the
counterexample). -/
theorem c6_termination {P : ℕ} (cfg : EvCfg P) (st : EvState P)
    (hfresh : ∀ s s' : EvState P, runPass cfg s = .ok s' → s'.progress = true →
      countNone s'.next < countNone s.next)
    (hlen : st.next.length = cfg.fixed_data.witness_cols.length) :
    (runLoop (cfg.fixed_data.witness_cols.length + 1) cfg st ≠ .ok none) ∧
    (∀ (fuel : Nat) (r : EvState P), runLoop fuel cfg st = .ok (some r) →
      r.progress = false ∨ r.next.all (fun v => v.isSome) = true) := by
  constructor
  · have hle : countNone st.next ≤ cfg.fixed_data.witness_cols.length := by
      rw [← hlen]
      exact List.countP_le_length _
    exact runLoop_terminates_of_fresh cfg hfresh _ st hle
  · intro fuel r h
    exact runLoop_exit_cond cfg fuel st r h

/-- C6 counterexample: with two witness columns and the machine `mAsn`
re-asserting `(0, 5)` every pass, every pass reports progress without
ever determining column 1, so the loop is still running after
`|witness_cols| + 1 = 3` passes (and indeed never exits). -/
theorem c6_counterexample : runLoop 3 cfgLoop stW2 = .ok none := by
  rfl

/-- C6 witness: with no identities and no queries every pass is
progress-free, so the hypothesis holds and the loop exits within
`|witness_cols| + 1` passes, in a state satisfying the exit condition. -/
theorem c6_witness :
    (runLoop 1 cfgEmpty7 stE ≠ .ok none) ∧
    (∀ (fuel : Nat) (r : EvState 7), runLoop fuel cfgEmpty7 stE = .ok (some r) →
      r.progress = false ∨ r.next.all (fun v => v.isSome) = true) :=
  c6_termination cfgEmpty7 stE
    (fun s s' h hp => by
      simp only [runPass, cfgEmpty7, List.foldlM_nil, pure_bind, processQueries,
        Except.ok.injEq] at h
      subst h
      simp at hp)
    rfl

end Powdr
